import Mathlib

/-!
Verification of the FastFila seeding/ingestion pipeline.

The definitions below are a shallow embedding of the POST /seed_questions
handler (`seed_questions_from_file` in main.py) together with the SQLite
store it talks to (table `questions (id INTEGER PRIMARY KEY AUTOINCREMENT,
title TEXT NOT NULL UNIQUE, content TEXT NOT NULL)`).

External effects are modelled as oracles:
  * the OpenAI call (`openai_client.chat.completions.create`) is a function
    `gen : Nat → String → Option String`, indexed by how many generator
    calls were made before this one; `none` models the call raising an
    exception, `some c` models it returning content `c`;
  * the cancellation poll (`await request.is_disconnected()`) is a function
    `disc : Nat → Bool`, indexed by how many polls happened before this one;
  * the questions file is an optional list of lines, the API key an
    optional string.
-/

namespace FastFila

/-- One row of the `questions` table. -/
structure QuestionRecord where
  id : Nat
  title : String
  content : String
deriving Repr, DecidableEq

/-- The `questions` table: its rows in creation order, and the next value
of the AUTOINCREMENT id counter. -/
structure Store where
  records : List QuestionRecord
  nextId : Nat
deriving Repr, DecidableEq

/-- A freshly created database: no rows, AUTOINCREMENT starts at 1. -/
def Store.empty : Store := ⟨[], 1⟩

/-- The titles currently stored, in creation order. -/
def Store.titles (s : Store) : List String := s.records.map (·.title)

/-- The duplicate pre-check
`SELECT id FROM questions WHERE title = ?` followed by `fetchone()`:
true iff some row has exactly this title. -/
def Store.existsTitle (s : Store) (t : String) : Bool :=
  s.records.any (fun r => r.title == t)

/-- `INSERT INTO questions (title, content) VALUES (?, ?)` + `commit()`:
the UNIQUE constraint on `title` makes the insert raise
`sqlite3.IntegrityError` (modelled as `none`) when a row with this title
already exists; otherwise the row is appended with the next id. -/
def Store.insert (s : Store) (t c : String) : Option Store :=
  if s.existsTitle t then none
  else some ⟨s.records ++ [⟨s.nextId, t, c⟩], s.nextId + 1⟩

/-- Python `str.strip()`: remove leading and trailing whitespace.
Implemented over the character list so that it evaluates by kernel
reduction. -/
def strip (s : String) : String :=
  ⟨((s.data.dropWhile Char.isWhitespace).reverse.dropWhile Char.isWhitespace).reverse⟩

/-- `[line.strip() for line in f if line.strip()]`: keep the lines that are
non-blank after stripping, each one stripped. -/
def normalizeSource (lines : List String) : List String :=
  (lines.filter (fun line => strip line ≠ "")).map strip

/-- Terminal status of a run: HTTP 200 (`completed`), HTTP 207
Multi-Status (the spec's partial status, `multiStatus`), or HTTP 499
client-closed (`cancelled`). -/
inductive Status where
  | completed
  | multiStatus
  | cancelled
deriving Repr, DecidableEq

/-- The full observable outcome of one seeding loop, instrumented so that
the oracles' interactions are visible: `genCalls` lists the titles sent to
the generator in call order, `skipped` counts duplicate fast-path skips
(these are included in `processed`), `attempted` lists the titles whose
iteration started, `remaining` the titles never reached. -/
structure RunResult where
  status : Status
  processed : Nat
  skipped : Nat
  failedTitles : List String
  store : Store
  genCalls : List String
  attempted : List String
  remaining : List String
deriving Repr, DecidableEq

/-- The `for title in questions_to_process:` loop of
`seed_questions_from_file`, made total by passing the loop state
explicitly: `k` counts cancellation polls so far, `sk` duplicate skips,
`p` is `processed_count`, `f` is `failed_questions`, `g` the titles sent
to the generator, `a` the titles attempted. Each iteration polls the
monitor, then takes the duplicate fast path, else calls the generator,
then inserts; per-item failures append the title to `f` and continue. -/
def seedLoop (gen : Nat → String → Option String) (disc : Nat → Bool) :
    List String → Store → Nat → Nat → Nat → List String → List String → List String → RunResult
  | [], store, _k, sk, p, f, g, a =>
      ⟨if f = [] then Status.completed else Status.multiStatus, p, sk, f, store, g, a, []⟩
  | t :: rest, store, k, sk, p, f, g, a =>
      if disc k then
        ⟨Status.cancelled, p, sk, f, store, g, a, t :: rest⟩
      else if store.existsTitle t then
        seedLoop gen disc rest store (k + 1) (sk + 1) (p + 1) f g (a ++ [t])
      else
        match gen g.length t with
        | none =>
            seedLoop gen disc rest store (k + 1) sk p (f ++ [t]) (g ++ [t]) (a ++ [t])
        | some content =>
            match store.insert t content with
            | none =>
                seedLoop gen disc rest store (k + 1) sk p (f ++ [t]) (g ++ [t]) (a ++ [t])
            | some store2 =>
                seedLoop gen disc rest store2 (k + 1) sk (p + 1) f (g ++ [t]) (a ++ [t])

/-- One seeding run over raw file lines: normalize, then loop from fresh
counters. -/
def runSeed (gen : Nat → String → Option String) (disc : Nat → Bool)
    (lines : List String) (s : Store) : RunResult :=
  seedLoop gen disc (normalizeSource lines) s 0 0 0 [] [] []

/-- The JSON response bodies of the handler: HTTP 200 with the count,
HTTP 207 with the count and `failed_questions`, HTTP 499 with the count
at cancellation time. -/
inductive SeedResponse where
  | ok (processed : Nat)
  | multi (processed : Nat) (failed : List String)
  | clientClosed (processed : Nat)
deriving Repr, DecidableEq

/-- Assemble the handler's response from the loop outcome: the 499 return
happens inside the loop with only the count; after the loop,
`if failed_questions:` selects 207 with the list, else 200. -/
def RunResult.response (r : RunResult) : SeedResponse :=
  match r.status with
  | Status.cancelled => SeedResponse.clientClosed r.processed
  | Status.multiStatus => SeedResponse.multi r.processed r.failedTitles
  | Status.completed => SeedResponse.ok r.processed

/-- Python falsiness of `os.environ.get("OPENAI_API_KEY")`: unset or empty. -/
def keyMissing : Option String → Bool
  | none => true
  | some k => k = ""

/-- Outcome of the whole endpoint: HTTP 404 when `questions.txt` is
missing, HTTP 500 when the key is unset, otherwise the seeding response. -/
inductive HttpOutcome where
  | notFound
  | configError
  | seeded (resp : SeedResponse)
deriving Repr, DecidableEq

/-- Endpoint outcome together with the final database state and the
generator calls made, so that untouched state is expressible. -/
structure TriggerResult where
  outcome : HttpOutcome
  store : Store
  genCalls : List String
deriving Repr, DecidableEq

/-- The whole `seed_questions_from_file` handler: check the file, check
the key, then run the loop. `fileLines` is `none` when `questions.txt`
does not exist. -/
def seedQuestionsFromFile (fileLines : Option (List String)) (apiKey : Option String)
    (gen : Nat → String → Option String) (disc : Nat → Bool) (s : Store) : TriggerResult :=
  match fileLines with
  | none => ⟨HttpOutcome.notFound, s, []⟩
  | some lines =>
      if keyMissing apiKey then ⟨HttpOutcome.configError, s, []⟩
      else
        let r := runSeed gen disc lines s
        ⟨HttpOutcome.seeded r.response, r.store, r.genCalls⟩

/-- Well-formedness of the store, as guaranteed by the schema: titles are
unique (UNIQUE constraint), ids are strictly increasing in creation order
and all below the AUTOINCREMENT counter (so no id is ever reused). -/
def Store.WF (s : Store) : Prop :=
  s.titles.Nodup ∧ List.Pairwise (· < ·) (s.records.map (·.id)) ∧
    ∀ r ∈ s.records, r.id < s.nextId

theorem Store.existsTitle_iff (s : Store) (t : String) :
    s.existsTitle t = true ↔ t ∈ s.titles := by
  rw [Store.existsTitle, List.any_eq_true]
  constructor
  · rintro ⟨r, hr, he⟩
    exact List.mem_map.mpr ⟨r, hr, beq_iff_eq.mp he⟩
  · intro ht
    obtain ⟨r, hr, he⟩ := List.mem_map.mp ht
    exact ⟨r, hr, beq_iff_eq.mpr he⟩

theorem Store.existsTitle_eq_false_iff (s : Store) (t : String) :
    s.existsTitle t = false ↔ t ∉ s.titles := by
  rw [← Store.existsTitle_iff]
  cases s.existsTitle t <;> simp

theorem Store.insert_records (s : Store) (t c : String) (s2 : Store)
    (h : s.insert t c = some s2) :
    s2.records = s.records ++ [⟨s.nextId, t, c⟩] ∧ s2.nextId = s.nextId + 1 ∧
      s.existsTitle t = false := by
  cases hex : s.existsTitle t with
  | true => rw [Store.insert, hex] at h; simp at h
  | false =>
    rw [Store.insert, hex] at h
    simp only [Bool.false_eq_true, if_false, Option.some.injEq] at h
    subst h
    exact ⟨rfl, rfl, rfl⟩

theorem Store.insert_titles (s : Store) (t c : String) (s2 : Store)
    (h : s.insert t c = some s2) : s2.titles = s.titles ++ [t] := by
  obtain ⟨hrec, -, -⟩ := Store.insert_records s t c s2 h
  simp [Store.titles, hrec]

theorem Store.insert_WF (s : Store) (t c : String) (s2 : Store) (hWF : s.WF)
    (h : s.insert t c = some s2) : s2.WF := by
  obtain ⟨hrec, hnext, hex⟩ := Store.insert_records s t c s2 h
  obtain ⟨hnd, hpw, hlt⟩ := hWF
  have htit := Store.insert_titles s t c s2 h
  have hmem : t ∉ s.titles := (Store.existsTitle_eq_false_iff s t).mp hex
  refine ⟨?_, ?_, ?_⟩
  · rw [htit]
    simp [List.nodup_append, hnd, hmem]
  · rw [hrec]
    simp only [List.map_append, List.map_cons, List.map_nil]
    rw [List.pairwise_append]
    refine ⟨hpw, by simp, ?_⟩
    intro x hx y hy
    simp only [List.mem_singleton] at hy
    subst hy
    obtain ⟨r, hr, hxr⟩ := List.mem_map.mp hx
    exact hxr ▸ hlt r hr
  · intro r hr
    rw [hrec] at hr
    rw [hnext]
    rcases List.mem_append.mp hr with h1 | h1
    · exact Nat.lt_succ_of_lt (hlt r h1)
    · simp only [List.mem_singleton] at h1
      subst h1
      exact Nat.lt_succ_self _

theorem seedLoop_store_append (gen : Nat → String → Option String) (disc : Nat → Bool)
    (ts : List String) (s : Store) (k sk p : Nat) (f g a : List String) :
    ∃ ext, (seedLoop gen disc ts s k sk p f g a).store.records = s.records ++ ext := by
  induction ts generalizing s k sk p f g a with
  | nil => exact ⟨[], by simp [seedLoop]⟩
  | cons t rest ih =>
    rw [seedLoop]
    split
    · exact ⟨[], by simp⟩
    · split
      · exact ih s (k + 1) (sk + 1) (p + 1) f g (a ++ [t])
      · split
        · exact ih s (k + 1) sk p (f ++ [t]) (g ++ [t]) (a ++ [t])
        · next content hg =>
          split
          · exact ih s (k + 1) sk p (f ++ [t]) (g ++ [t]) (a ++ [t])
          · next s2 hins =>
            obtain ⟨hrec, -, -⟩ := Store.insert_records s t content s2 hins
            obtain ⟨ext, hext⟩ := ih s2 (k + 1) sk (p + 1) f (g ++ [t]) (a ++ [t])
            exact ⟨⟨s.nextId, t, content⟩ :: ext, by rw [hext, hrec]; simp⟩

theorem seedLoop_failed_append (gen : Nat → String → Option String) (disc : Nat → Bool)
    (ts : List String) (s : Store) (k sk p : Nat) (f g a : List String) :
    ∃ ext, (seedLoop gen disc ts s k sk p f g a).failedTitles = f ++ ext := by
  induction ts generalizing s k sk p f g a with
  | nil => exact ⟨[], by simp [seedLoop]⟩
  | cons t rest ih =>
    rw [seedLoop]
    split
    · exact ⟨[], by simp⟩
    · split
      · exact ih s (k + 1) (sk + 1) (p + 1) f g (a ++ [t])
      · split
        · obtain ⟨ext, hext⟩ := ih s (k + 1) sk p (f ++ [t]) (g ++ [t]) (a ++ [t])
          exact ⟨t :: ext, by rw [hext]; simp⟩
        · next content hg =>
          split
          · obtain ⟨ext, hext⟩ := ih s (k + 1) sk p (f ++ [t]) (g ++ [t]) (a ++ [t])
            exact ⟨t :: ext, by rw [hext]; simp⟩
          · next s2 hins =>
            exact ih s2 (k + 1) sk (p + 1) f (g ++ [t]) (a ++ [t])

theorem seedLoop_titles_mono (gen : Nat → String → Option String) (disc : Nat → Bool)
    (ts : List String) (s : Store) (k sk p : Nat) (f g a : List String) (t : String)
    (h : t ∈ s.titles) : t ∈ (seedLoop gen disc ts s k sk p f g a).store.titles := by
  obtain ⟨ext, hext⟩ := seedLoop_store_append gen disc ts s k sk p f g a
  rw [Store.titles, hext, List.map_append]
  exact List.mem_append_left _ h

theorem seedLoop_failed_mono (gen : Nat → String → Option String) (disc : Nat → Bool)
    (ts : List String) (s : Store) (k sk p : Nat) (f g a : List String) (t : String)
    (h : t ∈ f) : t ∈ (seedLoop gen disc ts s k sk p f g a).failedTitles := by
  obtain ⟨ext, hext⟩ := seedLoop_failed_append gen disc ts s k sk p f g a
  rw [hext]
  exact List.mem_append_left _ h

theorem seedLoop_accounting (gen : Nat → String → Option String) (disc : Nat → Bool)
    (ts : List String) (s : Store) (k sk p : Nat) (f g a : List String) :
    (seedLoop gen disc ts s k sk p f g a).processed +
      (seedLoop gen disc ts s k sk p f g a).failedTitles.length +
      (seedLoop gen disc ts s k sk p f g a).remaining.length = p + f.length + ts.length := by
  induction ts generalizing s k sk p f g a with
  | nil => simp [seedLoop]
  | cons t rest ih =>
    rw [seedLoop]
    split
    · simp
    · split
      · have h := ih s (k + 1) (sk + 1) (p + 1) f g (a ++ [t])
        simp only [List.length_cons]
        omega
      · split
        · have h := ih s (k + 1) sk p (f ++ [t]) (g ++ [t]) (a ++ [t])
          simp only [List.length_append, List.length_cons, List.length_nil] at h ⊢
          omega
        · next content hg =>
          split
          · have h := ih s (k + 1) sk p (f ++ [t]) (g ++ [t]) (a ++ [t])
            simp only [List.length_append, List.length_cons, List.length_nil] at h ⊢
            omega
          · next s2 hins =>
            have h := ih s2 (k + 1) sk (p + 1) f (g ++ [t]) (a ++ [t])
            simp only [List.length_cons]
            omega

theorem seedLoop_attempted_remaining (gen : Nat → String → Option String) (disc : Nat → Bool)
    (ts : List String) (s : Store) (k sk p : Nat) (f g a : List String) :
    (seedLoop gen disc ts s k sk p f g a).attempted ++
      (seedLoop gen disc ts s k sk p f g a).remaining = a ++ ts := by
  induction ts generalizing s k sk p f g a with
  | nil => simp [seedLoop]
  | cons t rest ih =>
    rw [seedLoop]
    split
    · simp
    · split
      · rw [ih s (k + 1) (sk + 1) (p + 1) f g (a ++ [t])]
        simp
      · split
        · rw [ih s (k + 1) sk p (f ++ [t]) (g ++ [t]) (a ++ [t])]
          simp
        · next content hg =>
          split
          · rw [ih s (k + 1) sk p (f ++ [t]) (g ++ [t]) (a ++ [t])]
            simp
          · next s2 hins =>
            rw [ih s2 (k + 1) sk (p + 1) f (g ++ [t]) (a ++ [t])]
            simp

theorem seedLoop_processed_split (gen : Nat → String → Option String) (disc : Nat → Bool)
    (ts : List String) (s : Store) (k sk p : Nat) (f g a : List String) :
    (seedLoop gen disc ts s k sk p f g a).processed + sk + s.records.length =
      p + (seedLoop gen disc ts s k sk p f g a).skipped +
        (seedLoop gen disc ts s k sk p f g a).store.records.length := by
  induction ts generalizing s k sk p f g a with
  | nil => simp [seedLoop]
  | cons t rest ih =>
    rw [seedLoop]
    split
    · simp
    · split
      · have h := ih s (k + 1) (sk + 1) (p + 1) f g (a ++ [t])
        omega
      · split
        · have h := ih s (k + 1) sk p (f ++ [t]) (g ++ [t]) (a ++ [t])
          omega
        · next content hg =>
          split
          · have h := ih s (k + 1) sk p (f ++ [t]) (g ++ [t]) (a ++ [t])
            omega
          · next s2 hins =>
            have h := ih s2 (k + 1) sk (p + 1) f (g ++ [t]) (a ++ [t])
            obtain ⟨hrec, -, -⟩ := Store.insert_records s t content s2 hins
            rw [hrec] at h
            simp only [List.length_append, List.length_cons, List.length_nil] at h
            omega

theorem seedLoop_status_iff (gen : Nat → String → Option String) (disc : Nat → Bool)
    (ts : List String) (s : Store) (k sk p : Nat) (f g a : List String) :
    ((seedLoop gen disc ts s k sk p f g a).status = Status.cancelled ↔
        (seedLoop gen disc ts s k sk p f g a).remaining ≠ []) ∧
    ((seedLoop gen disc ts s k sk p f g a).status = Status.multiStatus ↔
        (seedLoop gen disc ts s k sk p f g a).remaining = [] ∧
          (seedLoop gen disc ts s k sk p f g a).failedTitles ≠ []) ∧
    ((seedLoop gen disc ts s k sk p f g a).status = Status.completed ↔
        (seedLoop gen disc ts s k sk p f g a).remaining = [] ∧
          (seedLoop gen disc ts s k sk p f g a).failedTitles = []) := by
  induction ts generalizing s k sk p f g a with
  | nil =>
    by_cases hf : f = [] <;> simp [seedLoop, hf]
  | cons t rest ih =>
    rw [seedLoop]
    split
    · simp
    · split
      · exact ih s (k + 1) (sk + 1) (p + 1) f g (a ++ [t])
      · split
        · exact ih s (k + 1) sk p (f ++ [t]) (g ++ [t]) (a ++ [t])
        · next content hg =>
          split
          · exact ih s (k + 1) sk p (f ++ [t]) (g ++ [t]) (a ++ [t])
          · next s2 hins =>
            exact ih s2 (k + 1) sk (p + 1) f (g ++ [t]) (a ++ [t])

theorem seedLoop_WF (gen : Nat → String → Option String) (disc : Nat → Bool)
    (ts : List String) (s : Store) (k sk p : Nat) (f g a : List String)
    (hWF : s.WF) : (seedLoop gen disc ts s k sk p f g a).store.WF := by
  induction ts generalizing s k sk p f g a with
  | nil => simpa [seedLoop] using hWF
  | cons t rest ih =>
    rw [seedLoop]
    split
    · exact hWF
    · split
      · exact ih s (k + 1) (sk + 1) (p + 1) f g (a ++ [t]) hWF
      · split
        · exact ih s (k + 1) sk p (f ++ [t]) (g ++ [t]) (a ++ [t]) hWF
        · next content hg =>
          split
          · exact ih s (k + 1) sk p (f ++ [t]) (g ++ [t]) (a ++ [t]) hWF
          · next s2 hins =>
            exact ih s2 (k + 1) sk (p + 1) f (g ++ [t]) (a ++ [t])
              (Store.insert_WF s t content s2 hWF hins)

theorem seedLoop_noCancel_remaining (gen : Nat → String → Option String) (disc : Nat → Bool)
    (hdisc : ∀ j, disc j = false)
    (ts : List String) (s : Store) (k sk p : Nat) (f g a : List String) :
    (seedLoop gen disc ts s k sk p f g a).remaining = [] := by
  induction ts generalizing s k sk p f g a with
  | nil => simp [seedLoop]
  | cons t rest ih =>
    rw [seedLoop]
    rw [hdisc k]
    simp only [Bool.false_eq_true, if_false]
    split
    · exact ih s (k + 1) (sk + 1) (p + 1) f g (a ++ [t])
    · split
      · exact ih s (k + 1) sk p (f ++ [t]) (g ++ [t]) (a ++ [t])
      · next content hg =>
        split
        · exact ih s (k + 1) sk p (f ++ [t]) (g ++ [t]) (a ++ [t])
        · next s2 hins =>
          exact ih s2 (k + 1) sk (p + 1) f (g ++ [t]) (a ++ [t])

theorem seedLoop_allSuccess (gen : Nat → String → Option String) (disc : Nat → Bool)
    (hgen : ∀ n t, gen n t ≠ none) (hdisc : ∀ j, disc j = false)
    (ts : List String) (s : Store) (k sk p : Nat) (f g a : List String) :
    (seedLoop gen disc ts s k sk p f g a).failedTitles = f ∧
      ∀ t, t ∈ (seedLoop gen disc ts s k sk p f g a).store.titles ↔
        t ∈ s.titles ∨ t ∈ ts := by
  induction ts generalizing s k sk p f g a with
  | nil => simp [seedLoop]
  | cons t rest ih =>
    rw [seedLoop, hdisc k]
    simp only [Bool.false_eq_true, if_false]
    cases hex : s.existsTitle t with
    | true =>
      simp only [if_true]
      obtain ⟨h1, h2⟩ := ih s (k + 1) (sk + 1) (p + 1) f g (a ++ [t])
      refine ⟨h1, fun u => ?_⟩
      rw [h2 u]
      constructor
      · rintro (h | h)
        · exact Or.inl h
        · exact Or.inr (List.mem_cons_of_mem _ h)
      · rintro (h | h)
        · exact Or.inl h
        · rcases List.mem_cons.mp h with h | h
          · subst h
            exact Or.inl ((Store.existsTitle_iff s u).mp hex)
          · exact Or.inr h
    | false =>
      simp only [Bool.false_eq_true, if_false]
      split
      · next hg => exact absurd hg (hgen _ _)
      · next content hg =>
        split
        · next hins =>
          rw [Store.insert, hex] at hins
          simp at hins
        · next s2 hins =>
          obtain ⟨h1, h2⟩ := ih s2 (k + 1) sk (p + 1) f (g ++ [t]) (a ++ [t])
          refine ⟨h1, fun u => ?_⟩
          rw [h2 u, Store.insert_titles s t content s2 hins]
          simp only [List.mem_append, List.mem_singleton, List.mem_cons]
          tauto

theorem seedLoop_allExists (gen : Nat → String → Option String) (disc : Nat → Bool)
    (hdisc : ∀ j, disc j = false)
    (ts : List String) (s : Store) (k sk p : Nat) (f g a : List String)
    (hex : ∀ t ∈ ts, s.existsTitle t = true) :
    (seedLoop gen disc ts s k sk p f g a).store = s ∧
      (seedLoop gen disc ts s k sk p f g a).failedTitles = f ∧
      (seedLoop gen disc ts s k sk p f g a).processed = p + ts.length ∧
      (seedLoop gen disc ts s k sk p f g a).genCalls = g := by
  induction ts generalizing s k sk p f g a with
  | nil => simp [seedLoop]
  | cons t rest ih =>
    rw [seedLoop, hdisc k]
    simp only [Bool.false_eq_true, if_false]
    rw [hex t (List.mem_cons_self t rest)]
    simp only [if_true]
    obtain ⟨h1, h2, h3, h4⟩ := ih s (k + 1) (sk + 1) (p + 1) f g (a ++ [t])
      (fun u hu => hex u (List.mem_cons_of_mem _ hu))
    refine ⟨h1, h2, ?_, h4⟩
    rw [h3]
    simp only [List.length_cons]
    omega

theorem seedLoop_genFailsOnly (gen : Nat → String → Option String) (disc : Nat → Bool)
    (X : String) (hgen : ∀ n t, gen n t = none ↔ t = X) (hdisc : ∀ j, disc j = false)
    (ts : List String) (s : Store) (k sk p : Nat) (f g a : List String)
    (hX : s.existsTitle X = false) :
    (∀ t, t ∈ (seedLoop gen disc ts s k sk p f g a).failedTitles ↔
        t ∈ f ∨ (t = X ∧ X ∈ ts)) ∧
      ∀ t, t ∈ (seedLoop gen disc ts s k sk p f g a).store.titles ↔
        t ∈ s.titles ∨ (t ∈ ts ∧ t ≠ X) := by
  induction ts generalizing s k sk p f g a with
  | nil => simp [seedLoop]
  | cons t rest ih =>
    rw [seedLoop, hdisc k]
    simp only [Bool.false_eq_true, if_false]
    have hXnotmem : X ∉ s.titles := (Store.existsTitle_eq_false_iff s X).mp hX
    cases hex : s.existsTitle t with
    | true =>
      simp only [if_true]
      obtain ⟨h1, h2⟩ := ih s (k + 1) (sk + 1) (p + 1) f g (a ++ [t]) hX
      refine ⟨fun u => ?_, fun u => ?_⟩
      · rw [h1 u]
        simp only [List.mem_cons]
        constructor
        · rintro (h | ⟨h, hm⟩)
          · exact Or.inl h
          · exact Or.inr ⟨h, Or.inr hm⟩
        · rintro (h | ⟨h, hm | hm⟩)
          · exact Or.inl h
          · subst hm
            exact absurd ((Store.existsTitle_iff s X).mp hex) hXnotmem
          · exact Or.inr ⟨h, hm⟩
      · rw [h2 u]
        have htmem : t ∈ s.titles := (Store.existsTitle_iff s t).mp hex
        simp only [List.mem_cons]
        constructor
        · rintro (h | ⟨h, hne⟩)
          · exact Or.inl h
          · exact Or.inr ⟨Or.inr h, hne⟩
        · rintro (h | ⟨h, hne⟩)
          · exact Or.inl h
          · rcases h with h | h
            · exact Or.inl (h ▸ htmem)
            · exact Or.inr ⟨h, hne⟩
    | false =>
      simp only [Bool.false_eq_true, if_false]
      split
      · next hg =>
        have htX : t = X := (hgen g.length t).mp hg
        obtain ⟨h1, h2⟩ := ih s (k + 1) sk p (f ++ [t]) (g ++ [t]) (a ++ [t]) hX
        refine ⟨fun u => ?_, fun u => ?_⟩
        · rw [h1 u]
          constructor
          · rintro (h | ⟨h, hm⟩)
            · rcases List.mem_append.mp h with h | h
              · exact Or.inl h
              · have hut : u = t := List.mem_singleton.mp h
                exact Or.inr ⟨hut.trans htX, List.mem_cons.mpr (Or.inl htX.symm)⟩
            · exact Or.inr ⟨h, List.mem_cons_of_mem _ hm⟩
          · rintro (h | ⟨h, hm⟩)
            · exact Or.inl (List.mem_append_left _ h)
            · exact Or.inl
                (List.mem_append_right _ (List.mem_singleton.mpr (h.trans htX.symm)))
        · rw [h2 u]
          constructor
          · rintro (h | ⟨h, hne⟩)
            · exact Or.inl h
            · exact Or.inr ⟨List.mem_cons_of_mem _ h, hne⟩
          · rintro (h | ⟨h, hne⟩)
            · exact Or.inl h
            · rcases List.mem_cons.mp h with h | h
              · exact absurd (h.trans htX) hne
              · exact Or.inr ⟨h, hne⟩
      · next content hg =>
        have htnX : t ≠ X := by
          intro h
          rw [(hgen g.length t).mpr h] at hg
          exact Option.noConfusion hg
        split
        · next hins =>
          rw [Store.insert, hex] at hins
          simp at hins
        · next s2 hins =>
          have ht2 := Store.insert_titles s t content s2 hins
          have hX2 : s2.existsTitle X = false := by
            rw [Store.existsTitle_eq_false_iff, ht2]
            simp only [List.mem_append, List.mem_singleton]
            rintro (h | h)
            · exact hXnotmem h
            · exact htnX h.symm
          obtain ⟨h1, h2⟩ := ih s2 (k + 1) sk (p + 1) f (g ++ [t]) (a ++ [t]) hX2
          refine ⟨fun u => ?_, fun u => ?_⟩
          · rw [h1 u]
            simp only [List.mem_cons]
            constructor
            · rintro (h | ⟨h, hm⟩)
              · exact Or.inl h
              · exact Or.inr ⟨h, Or.inr hm⟩
            · rintro (h | ⟨h, hm | hm⟩)
              · exact Or.inl h
              · exact absurd hm.symm htnX
              · exact Or.inr ⟨h, hm⟩
          · rw [h2 u, ht2]
            simp only [List.mem_append, List.mem_cons, List.not_mem_nil, or_false]
            constructor
            · rintro ((h | h) | ⟨h, hne⟩)
              · exact Or.inl h
              · exact Or.inr ⟨Or.inl h, fun hu => htnX (h.symm.trans hu)⟩
              · exact Or.inr ⟨Or.inr h, hne⟩
            · rintro (h | ⟨h | h, hne⟩)
              · exact Or.inl (Or.inl h)
              · exact Or.inl (Or.inr h)
              · exact Or.inr ⟨h, hne⟩

theorem seedLoop_attempted_append (gen : Nat → String → Option String) (disc : Nat → Bool)
    (ts : List String) (s : Store) (k sk p : Nat) (f g a : List String) :
    ∃ ext, (seedLoop gen disc ts s k sk p f g a).attempted = a ++ ext := by
  induction ts generalizing s k sk p f g a with
  | nil => exact ⟨[], by simp [seedLoop]⟩
  | cons t rest ih =>
    rw [seedLoop]
    split
    · exact ⟨[], by simp⟩
    · split
      · obtain ⟨ext, hext⟩ := ih s (k + 1) (sk + 1) (p + 1) f g (a ++ [t])
        exact ⟨t :: ext, by rw [hext]; simp⟩
      · split
        · obtain ⟨ext, hext⟩ := ih s (k + 1) sk p (f ++ [t]) (g ++ [t]) (a ++ [t])
          exact ⟨t :: ext, by rw [hext]; simp⟩
        · next content hg =>
          split
          · obtain ⟨ext, hext⟩ := ih s (k + 1) sk p (f ++ [t]) (g ++ [t]) (a ++ [t])
            exact ⟨t :: ext, by rw [hext]; simp⟩
          · next s2 hins =>
            obtain ⟨ext, hext⟩ := ih s2 (k + 1) sk (p + 1) f (g ++ [t]) (a ++ [t])
            exact ⟨t :: ext, by rw [hext]; simp⟩

theorem seedLoop_failed_sub_attempted (gen : Nat → String → Option String) (disc : Nat → Bool)
    (ts : List String) (s : Store) (k sk p : Nat) (f g a : List String) :
    ∀ t ∈ (seedLoop gen disc ts s k sk p f g a).failedTitles,
      t ∈ f ∨ t ∈ (seedLoop gen disc ts s k sk p f g a).attempted := by
  induction ts generalizing s k sk p f g a with
  | nil => intro t ht; simpa [seedLoop] using Or.inl ht
  | cons t rest ih =>
    rw [seedLoop]
    split
    · intro u hu; exact Or.inl hu
    · split
      · exact ih s (k + 1) (sk + 1) (p + 1) f g (a ++ [t])
      · split
        · intro u hu
          rcases ih s (k + 1) sk p (f ++ [t]) (g ++ [t]) (a ++ [t]) u hu with h | h
          · rcases List.mem_append.mp h with h | h
            · exact Or.inl h
            · refine Or.inr ?_
              obtain ⟨ext, hext⟩ :=
                seedLoop_attempted_append gen disc rest s (k + 1) sk p
                  (f ++ [t]) (g ++ [t]) (a ++ [t])
              rw [hext]
              exact List.mem_append_left _ (List.mem_append_right _ h)
          · exact Or.inr h
        · next content hg =>
          split
          · intro u hu
            rcases ih s (k + 1) sk p (f ++ [t]) (g ++ [t]) (a ++ [t]) u hu with h | h
            · rcases List.mem_append.mp h with h | h
              · exact Or.inl h
              · refine Or.inr ?_
                obtain ⟨ext, hext⟩ :=
                  seedLoop_attempted_append gen disc rest s (k + 1) sk p
                    (f ++ [t]) (g ++ [t]) (a ++ [t])
                rw [hext]
                exact List.mem_append_left _ (List.mem_append_right _ h)
            · exact Or.inr h
          · next s2 hins =>
            exact ih s2 (k + 1) sk (p + 1) f (g ++ [t]) (a ++ [t])

theorem seedLoop_attempted_coverage (gen : Nat → String → Option String) (disc : Nat → Bool)
    (ts : List String) (s : Store) (k sk p : Nat) (f g a : List String) :
    ∀ t ∈ (seedLoop gen disc ts s k sk p f g a).attempted,
      t ∈ a ∨ t ∈ (seedLoop gen disc ts s k sk p f g a).store.titles ∨
        t ∈ (seedLoop gen disc ts s k sk p f g a).failedTitles := by
  induction ts generalizing s k sk p f g a with
  | nil => intro t ht; simp only [seedLoop] at ht ⊢; exact Or.inl ht
  | cons t rest ih =>
    rw [seedLoop]
    split
    · intro u hu; exact Or.inl hu
    · split
      · next hex =>
        intro u hu
        rcases ih s (k + 1) (sk + 1) (p + 1) f g (a ++ [t]) u hu with h | h
        · rcases List.mem_append.mp h with h | h
          · exact Or.inl h
          · have hut : u = t := List.mem_singleton.mp h
            refine Or.inr (Or.inl ?_)
            exact seedLoop_titles_mono gen disc rest s (k + 1) (sk + 1) (p + 1) f g
              (a ++ [t]) u (hut ▸ (Store.existsTitle_iff s t).mp hex)
        · exact Or.inr h
      · split
        · intro u hu
          rcases ih s (k + 1) sk p (f ++ [t]) (g ++ [t]) (a ++ [t]) u hu with h | h
          · rcases List.mem_append.mp h with h | h
            · exact Or.inl h
            · have hut : u = t := List.mem_singleton.mp h
              refine Or.inr (Or.inr ?_)
              exact seedLoop_failed_mono gen disc rest s (k + 1) sk p (f ++ [t])
                (g ++ [t]) (a ++ [t]) u (hut ▸ List.mem_append_right _ (List.mem_singleton.mpr rfl))
          · exact Or.inr h
        · next content hg =>
          split
          · intro u hu
            rcases ih s (k + 1) sk p (f ++ [t]) (g ++ [t]) (a ++ [t]) u hu with h | h
            · rcases List.mem_append.mp h with h | h
              · exact Or.inl h
              · have hut : u = t := List.mem_singleton.mp h
                refine Or.inr (Or.inr ?_)
                exact seedLoop_failed_mono gen disc rest s (k + 1) sk p (f ++ [t])
                  (g ++ [t]) (a ++ [t]) u
                  (hut ▸ List.mem_append_right _ (List.mem_singleton.mpr rfl))
            · exact Or.inr h
          · next s2 hins =>
            intro u hu
            rcases ih s2 (k + 1) sk (p + 1) f (g ++ [t]) (a ++ [t]) u hu with h | h
            · rcases List.mem_append.mp h with h | h
              · exact Or.inl h
              · have hut : u = t := List.mem_singleton.mp h
                refine Or.inr (Or.inl ?_)
                refine seedLoop_titles_mono gen disc rest s2 (k + 1) sk (p + 1) f
                  (g ++ [t]) (a ++ [t]) u ?_
                rw [Store.insert_titles s t content s2 hins]
                exact List.mem_append_right _ (List.mem_singleton.mpr hut)
            · exact Or.inr h

theorem mem_normalizeSource (lines : List String) (t : String) :
    t ∈ normalizeSource lines ↔ t ≠ "" ∧ ∃ l ∈ lines, strip l = t := by
  rw [normalizeSource]
  simp only [List.mem_map, List.mem_filter]
  constructor
  · rintro ⟨l, ⟨hl, hne⟩, hlt⟩
    refine ⟨?_, l, hl, hlt⟩
    intro h
    rw [hlt, h] at hne
    simp at hne
  · rintro ⟨hne, l, hl, hlt⟩
    refine ⟨l, ⟨hl, ?_⟩, hlt⟩
    simpa [hlt] using hne

theorem normalizeSource_eq_map_filter (lines : List String) :
    normalizeSource lines = (lines.map strip).filter (fun t => t ≠ "") := by
  rw [normalizeSource]
  induction lines with
  | nil => simp
  | cons l rest ih =>
    simp only [ne_eq, decide_not] at ih
    by_cases h : strip l = "" <;> simp [List.filter_cons, h, ih]

theorem seedLoop_cancel_split (gen : Nat → String → Option String) (disc : Nat → Bool)
    (m : Nat) :
    ∀ (ts : List String) (s : Store) (k sk p : Nat) (f g a : List String),
      (∀ j, j < m → disc (k + j) = false) → disc (k + m) = true → m < ts.length →
      seedLoop gen disc ts s k sk p f g a =
        ⟨Status.cancelled,
          (seedLoop gen (fun _ => false) (ts.take m) s k sk p f g a).processed,
          (seedLoop gen (fun _ => false) (ts.take m) s k sk p f g a).skipped,
          (seedLoop gen (fun _ => false) (ts.take m) s k sk p f g a).failedTitles,
          (seedLoop gen (fun _ => false) (ts.take m) s k sk p f g a).store,
          (seedLoop gen (fun _ => false) (ts.take m) s k sk p f g a).genCalls,
          (seedLoop gen (fun _ => false) (ts.take m) s k sk p f g a).attempted,
          ts.drop m⟩ := by
  induction m with
  | zero =>
    intro ts s k sk p f g a h0 hm hlen
    cases ts with
    | nil => simp at hlen
    | cons t rest =>
      simp only [Nat.add_zero] at hm
      simp only [List.take_zero, List.drop_zero, seedLoop, hm, if_true]
  | succ n ih =>
    intro ts s k sk p f g a h0 hm hlen
    cases ts with
    | nil => simp at hlen
    | cons t rest =>
      have hd0 : disc k = false := by simpa using h0 0 (Nat.succ_pos n)
      have h0' : ∀ j, j < n → disc (k + 1 + j) = false := by
        intro j hj
        have hh := h0 (j + 1) (by omega)
        rwa [show k + (j + 1) = k + 1 + j by omega] at hh
      have hm' : disc (k + 1 + n) = true := by
        rwa [show k + (n + 1) = k + 1 + n by omega] at hm
      have hlen' : n < rest.length := by
        simp only [List.length_cons] at hlen
        omega
      simp only [List.take_succ_cons, List.drop_succ_cons, seedLoop, hd0,
        Bool.false_eq_true, if_false]
      split
      · exact ih rest s (k + 1) (sk + 1) (p + 1) f g (a ++ [t]) h0' hm' hlen'
      · split
        · exact ih rest s (k + 1) sk p (f ++ [t]) (g ++ [t]) (a ++ [t]) h0' hm' hlen'
        · next content hg =>
          split
          · exact ih rest s (k + 1) sk p (f ++ [t]) (g ++ [t]) (a ++ [t]) h0' hm' hlen'
          · next s2 hins =>
            exact ih rest s2 (k + 1) sk (p + 1) f (g ++ [t]) (a ++ [t]) h0' hm' hlen'

theorem Store.empty_WF : Store.empty.WF := by
  refine ⟨?_, ?_, ?_⟩ <;> simp [Store.empty, Store.titles]

/-- C7: the list of titles the pipeline iterates over equals the input
lines each whitespace-trimmed, with lines that are empty after trimming
discarded, in the original order with in-list duplicates preserved: the
normalization is literally trim-then-drop-blank applied positionally, and
an uncancelled run attempts exactly that list. -/
theorem C7_source_normalization (lines : List String)
    (gen : Nat → String → Option String) (s : Store) :
    normalizeSource lines = (lines.map strip).filter (fun t => t ≠ "") ∧
      (runSeed gen (fun _ => false) lines s).attempted =
        (lines.map strip).filter (fun t => t ≠ "") := by
  refine ⟨normalizeSource_eq_map_filter lines, ?_⟩
  rw [← normalizeSource_eq_map_filter]
  have h1 := seedLoop_noCancel_remaining gen (fun _ => false) (fun _ => rfl)
    (normalizeSource lines) s 0 0 0 [] [] []
  have h2 := seedLoop_attempted_remaining gen (fun _ => false)
    (normalizeSource lines) s 0 0 0 [] [] []
  rw [runSeed]
  rw [h1, List.append_nil] at h2
  simpa using h2

/-- C6: when the title at the head of the worklist already exists in the
store and the client is still connected, the iteration increments
processed_count (and the skip counter) and continues with the remaining
titles, with no generator call and no change to the store, the failed
list, or the generator-call log. -/
theorem C6_duplicate_fast_path (gen : Nat → String → Option String) (disc : Nat → Bool)
    (t : String) (rest : List String) (s : Store) (k sk p : Nat) (f g a : List String)
    (hdisc : disc k = false) (hex : s.existsTitle t = true) :
    seedLoop gen disc (t :: rest) s k sk p f g a =
      seedLoop gen disc rest s (k + 1) (sk + 1) (p + 1) f g (a ++ [t]) := by
  rw [seedLoop, hdisc, hex]
  simp

/-- Witness for C6 at a concrete store already holding the record. -/
theorem C6_duplicate_fast_path_witness :
    seedLoop (fun _ _ => some "c") (fun _ => false) ["a"]
        ⟨[⟨1, "a", "x"⟩], 2⟩ 0 0 0 [] [] [] =
      seedLoop (fun _ _ => some "c") (fun _ => false) []
        ⟨[⟨1, "a", "x"⟩], 2⟩ 1 1 1 [] [] ["a"] :=
  C6_duplicate_fast_path (fun _ _ => some "c") (fun _ => false) "a" []
    ⟨[⟨1, "a", "x"⟩], 2⟩ 0 0 0 [] [] [] rfl (by decide)

/-- C8: a missing questions file yields the not-found outcome and a
missing or empty API key yields the configuration-error outcome, in both
cases with the store unchanged and no generator call made. -/
theorem C8_config_errors_abort (apiKey : Option String) (lines : List String)
    (gen : Nat → String → Option String) (disc : Nat → Bool) (s : Store) :
    seedQuestionsFromFile none apiKey gen disc s = ⟨HttpOutcome.notFound, s, []⟩ ∧
      (keyMissing apiKey = true →
        seedQuestionsFromFile (some lines) apiKey gen disc s =
          ⟨HttpOutcome.configError, s, []⟩) := by
  constructor
  · rfl
  · intro hk
    rw [seedQuestionsFromFile, hk]
    simp

/-- Witness for C8 with an unset key: both aborting outcomes at concrete
inputs, the key-missing hypothesis discharged by rfl. -/
theorem C8_config_errors_abort_witness :
    seedQuestionsFromFile none none (fun _ _ => some "c") (fun _ => false) Store.empty =
        ⟨HttpOutcome.notFound, Store.empty, []⟩ ∧
      seedQuestionsFromFile (some ["a"]) none (fun _ _ => some "c") (fun _ => false)
          Store.empty =
        ⟨HttpOutcome.configError, Store.empty, []⟩ :=
  ⟨(C8_config_errors_abort none ["a"] (fun _ _ => some "c") (fun _ => false) Store.empty).1,
    (C8_config_errors_abort none ["a"] (fun _ _ => some "c") (fun _ => false)
      Store.empty).2 rfl⟩

/-- C4: the terminal status is cancelled exactly when the cancellation
poll stopped the loop with titles still unattempted; otherwise the status
is the 207 multi-status (the spec's partial) exactly when failed_titles is
non-empty and completed exactly when it is empty; the response includes
the failed list only in the multi-status case and reports processed_count
in every case. -/
theorem C4_terminal_status (gen : Nat → String → Option String) (disc : Nat → Bool)
    (lines : List String) (s : Store) :
    ((runSeed gen disc lines s).status = Status.cancelled ↔
        (runSeed gen disc lines s).remaining ≠ []) ∧
      ((runSeed gen disc lines s).status ≠ Status.cancelled →
        ((runSeed gen disc lines s).status = Status.multiStatus ↔
          (runSeed gen disc lines s).failedTitles ≠ [])) ∧
      ((runSeed gen disc lines s).status ≠ Status.cancelled →
        ((runSeed gen disc lines s).status = Status.completed ↔
          (runSeed gen disc lines s).failedTitles = [])) ∧
      ((runSeed gen disc lines s).status = Status.cancelled →
        (runSeed gen disc lines s).response =
          SeedResponse.clientClosed (runSeed gen disc lines s).processed) ∧
      ((runSeed gen disc lines s).status = Status.multiStatus →
        (runSeed gen disc lines s).response =
          SeedResponse.multi (runSeed gen disc lines s).processed
            (runSeed gen disc lines s).failedTitles) ∧
      ((runSeed gen disc lines s).status = Status.completed →
        (runSeed gen disc lines s).response =
          SeedResponse.ok (runSeed gen disc lines s).processed) := by
  simp only [runSeed]
  obtain ⟨h1, h2, h3⟩ := seedLoop_status_iff gen disc (normalizeSource lines) s 0 0 0 [] [] []
  refine ⟨h1, ?_, ?_, ?_, ?_, ?_⟩
  · intro hnc
    have hrem : (seedLoop gen disc (normalizeSource lines) s 0 0 0 [] [] []).remaining = [] := by
      by_contra hr
      exact hnc (h1.mpr hr)
    rw [h2]
    simp [hrem]
  · intro hnc
    have hrem : (seedLoop gen disc (normalizeSource lines) s 0 0 0 [] [] []).remaining = [] := by
      by_contra hr
      exact hnc (h1.mpr hr)
    rw [h3]
    simp [hrem]
  · intro hc
    rw [RunResult.response, hc]
  · intro hc
    rw [RunResult.response, hc]
  · intro hc
    rw [RunResult.response, hc]

/-- Witness for C4: a fully successful run reports the 200 response with
its processed count; the completed-status hypothesis is discharged by
evaluation. -/
theorem C4_terminal_status_witness :
    (runSeed (fun _ _ => some "c") (fun _ => false) ["a"] Store.empty).response =
      SeedResponse.ok
        (runSeed (fun _ _ => some "c") (fun _ => false) ["a"] Store.empty).processed :=
  (C4_terminal_status (fun _ _ => some "c") (fun _ => false) ["a"]
    Store.empty).2.2.2.2.2 (by decide)

/-- C9: the store invariants are preserved by every operation: a
successful insert keeps titles unique, appends the new record at the end
(no existing record is mutated or deleted) with the next id, and bumps
the id counter, so ids are strictly increasing in creation order and
never reused; consequently a whole seeding run preserves well-formedness
and only ever appends records. -/
theorem C9_store_invariants (s : Store) (hWF : s.WF) :
    (∀ t c s2, s.insert t c = some s2 →
        s2.WF ∧ s2.records = s.records ++ [⟨s.nextId, t, c⟩] ∧ s2.nextId = s.nextId + 1) ∧
      ∀ gen disc lines, (runSeed gen disc lines s).store.WF ∧
        ∃ ext, (runSeed gen disc lines s).store.records = s.records ++ ext := by
  constructor
  · intro t c s2 h
    obtain ⟨h1, h2, -⟩ := Store.insert_records s t c s2 h
    exact ⟨Store.insert_WF s t c s2 hWF h, h1, h2⟩
  · intro gen disc lines
    rw [runSeed]
    exact ⟨seedLoop_WF gen disc (normalizeSource lines) s 0 0 0 [] [] [] hWF,
      seedLoop_store_append gen disc (normalizeSource lines) s 0 0 0 [] [] []⟩

/-- Witness for C9 starting from the empty store, whose well-formedness
is discharged explicitly. -/
theorem C9_store_invariants_witness :
    (∀ t c s2, Store.empty.insert t c = some s2 →
        s2.WF ∧ s2.records = Store.empty.records ++ [⟨Store.empty.nextId, t, c⟩] ∧
          s2.nextId = Store.empty.nextId + 1) ∧
      ∀ gen disc lines, (runSeed gen disc lines Store.empty).store.WF ∧
        ∃ ext, (runSeed gen disc lines Store.empty).store.records =
          Store.empty.records ++ ext :=
  C9_store_invariants Store.empty Store.empty_WF

/-- C10: in every run, processed_count plus the number of failed titles
equals the number of titles attempted (each attempted item lands in
exactly one bucket); a run that is never cancelled attempts the whole
normalized source list, so the two then sum to its length. The first
conjunct holds for an arbitrary cancellation oracle, hence at every
iteration boundary reachable by some oracle. -/
theorem C10_accounting (gen : Nat → String → Option String) (disc : Nat → Bool)
    (lines : List String) (s : Store) :
    (runSeed gen disc lines s).processed + (runSeed gen disc lines s).failedTitles.length =
        (runSeed gen disc lines s).attempted.length ∧
      ((∀ j, disc j = false) →
        (runSeed gen disc lines s).processed +
            (runSeed gen disc lines s).failedTitles.length =
          (normalizeSource lines).length) := by
  simp only [runSeed]
  have hacc := seedLoop_accounting gen disc (normalizeSource lines) s 0 0 0 [] [] []
  have hatt := congrArg List.length
    (seedLoop_attempted_remaining gen disc (normalizeSource lines) s 0 0 0 [] [] [])
  simp only [List.length_append, List.length_nil, List.length_cons] at hacc hatt
  constructor
  · omega
  · intro hd
    have hrem := congrArg List.length
      (seedLoop_noCancel_remaining gen disc hd (normalizeSource lines) s 0 0 0 [] [] [])
    simp only [List.length_nil] at hrem
    omega

/-- C1: when the generator succeeds on every call, running the seeding
job twice over the same lines against an initially empty store leaves,
after the second run, an empty failed list and a store holding exactly
one record per distinct non-blank stripped title of the input. -/
theorem C1_idempotence (gen : Nat → String → Option String) (lines : List String)
    (hgen : ∀ n t, gen n t ≠ none) :
    (runSeed gen (fun _ => false) lines
        (runSeed gen (fun _ => false) lines Store.empty).store).failedTitles = [] ∧
      (runSeed gen (fun _ => false) lines
          (runSeed gen (fun _ => false) lines Store.empty).store).store.titles.Nodup ∧
      ∀ t, t ∈ (runSeed gen (fun _ => false) lines
            (runSeed gen (fun _ => false) lines Store.empty).store).store.titles ↔
          (t ≠ "" ∧ ∃ l ∈ lines, strip l = t) := by
  simp only [runSeed]
  obtain ⟨hf1, hm1⟩ := seedLoop_allSuccess gen (fun _ => false) hgen (fun _ => rfl)
    (normalizeSource lines) Store.empty 0 0 0 [] [] []
  have hmem1 : ∀ t, t ∈ (seedLoop gen (fun _ => false) (normalizeSource lines)
      Store.empty 0 0 0 [] [] []).store.titles ↔ t ∈ normalizeSource lines := by
    intro t
    rw [hm1 t]
    simp [Store.empty, Store.titles]
  have hex2 : ∀ t ∈ normalizeSource lines,
      (seedLoop gen (fun _ => false) (normalizeSource lines) Store.empty
        0 0 0 [] [] []).store.existsTitle t = true := by
    intro t ht
    rw [Store.existsTitle_iff]
    exact (hmem1 t).mpr ht
  obtain ⟨hst2, hf2, -, -⟩ := seedLoop_allExists gen (fun _ => false) (fun _ => rfl)
    (normalizeSource lines)
    ((seedLoop gen (fun _ => false) (normalizeSource lines) Store.empty
      0 0 0 [] [] []).store) 0 0 0 [] [] [] hex2
  refine ⟨hf2, ?_, ?_⟩
  · rw [hst2]
    exact (seedLoop_WF gen (fun _ => false) (normalizeSource lines) Store.empty
      0 0 0 [] [] [] Store.empty_WF).1
  · intro t
    rw [hst2, hmem1 t, mem_normalizeSource]

/-- Witness for C1 on a list with a blank line, an unstripped duplicate
and two distinct titles, with an always-succeeding generator. -/
theorem C1_idempotence_witness :
    (runSeed (fun _ _ => some "c") (fun _ => false) [" a", "", "a", "b"]
        (runSeed (fun _ _ => some "c") (fun _ => false) [" a", "", "a", "b"]
          Store.empty).store).failedTitles = [] ∧
      (runSeed (fun _ _ => some "c") (fun _ => false) [" a", "", "a", "b"]
          (runSeed (fun _ _ => some "c") (fun _ => false) [" a", "", "a", "b"]
            Store.empty).store).store.titles.Nodup ∧
      ∀ t, t ∈ (runSeed (fun _ _ => some "c") (fun _ => false) [" a", "", "a", "b"]
            (runSeed (fun _ _ => some "c") (fun _ => false) [" a", "", "a", "b"]
              Store.empty).store).store.titles ↔
          (t ≠ "" ∧ ∃ l ∈ [" a", "", "a", "b"], strip l = t) :=
  C1_idempotence (fun _ _ => some "c") [" a", "", "a", "b"]
    (fun _ _ h => Option.noConfusion h)

/-- C3: when the generator fails exactly for title X (on every call) and
X is not already stored, an uncancelled run records exactly X in
failed_questions (once per occurrence, so membership is exactly X when X
occurs), persists every other normalized title, does not persist X, and
the loop still runs to completion. -/
theorem C3_failure_isolation (gen : Nat → String → Option String) (lines : List String)
    (s : Store) (X : String) (hgen : ∀ n t, gen n t = none ↔ t = X)
    (hX : s.existsTitle X = false) :
    (∀ t, t ∈ (runSeed gen (fun _ => false) lines s).failedTitles ↔
        (t = X ∧ X ∈ normalizeSource lines)) ∧
      (∀ t ∈ normalizeSource lines, t ≠ X →
        t ∈ (runSeed gen (fun _ => false) lines s).store.titles) ∧
      X ∉ (runSeed gen (fun _ => false) lines s).store.titles ∧
      (runSeed gen (fun _ => false) lines s).remaining = [] := by
  simp only [runSeed]
  obtain ⟨h1, h2⟩ := seedLoop_genFailsOnly gen (fun _ => false) X hgen (fun _ => rfl)
    (normalizeSource lines) s 0 0 0 [] [] [] hX
  refine ⟨?_, ?_, ?_, ?_⟩
  · intro t
    rw [h1 t]
    simp
  · intro t ht htX
    rw [h2 t]
    exact Or.inr ⟨ht, htX⟩
  · rw [h2 X]
    rintro (h | ⟨-, h⟩)
    · exact (Store.existsTitle_eq_false_iff s X).mp hX h
    · exact h rfl
  · exact seedLoop_noCancel_remaining gen (fun _ => false) (fun _ => rfl)
      (normalizeSource lines) s 0 0 0 [] [] []

/-- Witness for C3: the generator fails exactly on "x" over the source
list ["x", "y"] against the empty store. -/
theorem C3_failure_isolation_witness :
    (∀ t, t ∈ (runSeed (fun _ u => if u = "x" then none else some "c") (fun _ => false)
          ["x", "y"] Store.empty).failedTitles ↔
        (t = "x" ∧ "x" ∈ normalizeSource ["x", "y"])) ∧
      (∀ t ∈ normalizeSource ["x", "y"], t ≠ "x" →
        t ∈ (runSeed (fun _ u => if u = "x" then none else some "c") (fun _ => false)
          ["x", "y"] Store.empty).store.titles) ∧
      "x" ∉ (runSeed (fun _ u => if u = "x" then none else some "c") (fun _ => false)
        ["x", "y"] Store.empty).store.titles ∧
      (runSeed (fun _ u => if u = "x" then none else some "c") (fun _ => false)
        ["x", "y"] Store.empty).remaining = [] :=
  C3_failure_isolation (fun _ u => if u = "x" then none else some "c") ["x", "y"]
    Store.empty "x" (fun n t => by by_cases h : t = "x" <;> simp [h]) rfl

/-- C2 counterexample: normalized source ["a","a","b","c"], generator
always succeeding, cancellation signalled at the fourth poll. At that
point N = 2 items have completed a successful insert (the store holds
exactly those 2 records) and one item was a duplicate-skip, yet the
reported processed_count is 3, which is neither N nor fewer — refuting
the claim that processed_count = N or fewer when duplicate-skips
occurred. -/
theorem C2_counterexample :
    (runSeed (fun _ _ => some "c") (fun k => k == 3) ["a", "a", "b", "c"]
        Store.empty).status = Status.cancelled ∧
      (runSeed (fun _ _ => some "c") (fun k => k == 3) ["a", "a", "b", "c"]
        Store.empty).store.records.length = 2 ∧
      (runSeed (fun _ _ => some "c") (fun k => k == 3) ["a", "a", "b", "c"]
        Store.empty).skipped = 1 ∧
      (runSeed (fun _ _ => some "c") (fun k => k == 3) ["a", "a", "b", "c"]
        Store.empty).processed = 3 ∧
      ¬ ((runSeed (fun _ _ => some "c") (fun k => k == 3) ["a", "a", "b", "c"]
        Store.empty).processed ≤ 2) := by
  decide

/-- C2 amended: the monitor is polled once at the start of each iteration
before any store or generator access; if the first m polls say connected
and the (m+1)-st says disconnected with items still remaining, the run
stops at that poll with status cancelled, its counters, failed list,
store, generator-call log and attempted list being exactly those of
processing only the first m normalized titles (so no further generator
calls occur and the not-yet-started title is not recorded as failed),
the remaining titles are never attempted, and processed_count equals the
number of records added plus the number of duplicate-skips (i.e. at
least N, exceeding N exactly when duplicate-skips occurred). -/
theorem C2_cancellation (gen : Nat → String → Option String) (disc : Nat → Bool)
    (lines : List String) (s : Store) (m : Nat)
    (h0 : ∀ j, j < m → disc j = false) (hm : disc m = true)
    (hlen : m < (normalizeSource lines).length) :
    runSeed gen disc lines s =
        ⟨Status.cancelled,
          (seedLoop gen (fun _ => false) ((normalizeSource lines).take m) s
            0 0 0 [] [] []).processed,
          (seedLoop gen (fun _ => false) ((normalizeSource lines).take m) s
            0 0 0 [] [] []).skipped,
          (seedLoop gen (fun _ => false) ((normalizeSource lines).take m) s
            0 0 0 [] [] []).failedTitles,
          (seedLoop gen (fun _ => false) ((normalizeSource lines).take m) s
            0 0 0 [] [] []).store,
          (seedLoop gen (fun _ => false) ((normalizeSource lines).take m) s
            0 0 0 [] [] []).genCalls,
          (seedLoop gen (fun _ => false) ((normalizeSource lines).take m) s
            0 0 0 [] [] []).attempted,
          (normalizeSource lines).drop m⟩ ∧
      (runSeed gen disc lines s).processed + s.records.length =
        (runSeed gen disc lines s).store.records.length +
          (runSeed gen disc lines s).skipped := by
  have hsplit := seedLoop_cancel_split gen disc m (normalizeSource lines) s 0 0 0 [] [] []
    (fun j hj => by simpa using h0 j hj) (by simpa using hm) hlen
  constructor
  · rw [runSeed]
    exact hsplit
  · have hps := seedLoop_processed_split gen disc (normalizeSource lines) s 0 0 0 [] [] []
    simp only [runSeed]
    omega

/-- Witness for C2 at a concrete cancellation point: one successful item
then a disconnect, the poll hypotheses discharged explicitly. -/
theorem C2_cancellation_witness :
    (runSeed (fun _ _ => some "c") (fun k => k == 1) ["a", "b"] Store.empty).processed +
        Store.empty.records.length =
      (runSeed (fun _ _ => some "c") (fun k => k == 1) ["a", "b"]
          Store.empty).store.records.length +
        (runSeed (fun _ _ => some "c") (fun k => k == 1) ["a", "b"] Store.empty).skipped :=
  (C2_cancellation (fun _ _ => some "c") (fun k => k == 1) ["a", "b"] Store.empty 1
    (fun j hj => by
      have hj0 : j = 0 := by omega
      subst hj0
      rfl)
    rfl (by decide)).2

/-- C5 counterexample: over the source list ["a","a"], a generator that
fails on its first call and succeeds on its second leaves "a" in
failed_questions while a record titled "a" is in the store at the end of
the run — refuting the claim that every title listed in failed_titles has
no corresponding record in the store at the end of the run. -/
theorem C5_counterexample :
    "a" ∈ (runSeed (fun n _ => if n = 0 then none else some "c") (fun _ => false)
        ["a", "a"] Store.empty).failedTitles ∧
      "a" ∈ (runSeed (fun n _ => if n = 0 then none else some "c") (fun _ => false)
        ["a", "a"] Store.empty).store.titles := by
  decide

/-- C5 amended: failure accounting is per attempted item, not per title:
every title in failed_titles comes from an attempted item, and every
attempted title absent from the store at the end of the run is listed in
failed_titles (a skipped duplicate is always present in the store, so it
is never such a title); but a listed title may still be stored when a
later duplicate occurrence of it succeeded. -/
theorem C5_failed_titles_characterization (gen : Nat → String → Option String)
    (disc : Nat → Bool) (lines : List String) (s : Store) :
    (∀ t ∈ (runSeed gen disc lines s).failedTitles,
        t ∈ (runSeed gen disc lines s).attempted) ∧
      ∀ t ∈ (runSeed gen disc lines s).attempted,
        t ∉ (runSeed gen disc lines s).store.titles →
          t ∈ (runSeed gen disc lines s).failedTitles := by
  simp only [runSeed]
  constructor
  · intro t ht
    rcases seedLoop_failed_sub_attempted gen disc (normalizeSource lines) s
      0 0 0 [] [] [] t ht with h | h
    · exact absurd h (List.not_mem_nil t)
    · exact h
  · intro t ht hst
    rcases seedLoop_attempted_coverage gen disc (normalizeSource lines) s
      0 0 0 [] [] [] t ht with h | h | h
    · exact absurd h (List.not_mem_nil t)
    · exact absurd h hst
    · exact h

/-- Witness for C5: a failed title is among the attempted ones, at a
concrete all-failing run. -/
theorem C5_failed_titles_characterization_witness :
    "a" ∈ (runSeed (fun _ _ => none) (fun _ => false) ["a"] Store.empty).attempted :=
  (C5_failed_titles_characterization (fun _ _ => none) (fun _ => false) ["a"]
    Store.empty).1 "a" (by decide)

/-- Witness for C10: an uncancelled mixed success/failure run over three
normalized titles, the no-cancellation hypothesis discharged pointwise. -/
theorem C10_accounting_witness :
    (runSeed (fun _ t => if t = "b" then none else some "c") (fun _ => false)
          ["a", "b", "x"] Store.empty).processed +
        (runSeed (fun _ t => if t = "b" then none else some "c") (fun _ => false)
          ["a", "b", "x"] Store.empty).failedTitles.length =
      (normalizeSource ["a", "b", "x"]).length :=
  (C10_accounting (fun _ t => if t = "b" then none else some "c") (fun _ => false)
    ["a", "b", "x"] Store.empty).2 (fun _ => rfl)

end FastFila
